import Mathlib

/-!
Shallow embedding of the todo-list backend (Go):
- `internal/domain`: the `Todo` record (timestamps embedded as `Nat`).
- `internal/adapters/repo/memory`: the in-memory store. The Go `map[string]domain.Todo`
  is embedded as an association list with Go map semantics: assignment overwrites the
  entry with the same key, deletion filters it out, lookup finds it. Go map iteration
  order is unspecified; the embedding iterates in insertion order, and every property
  proved about `List` (permutation, sortedness) is insensitive to that choice.
  The nondeterministic inputs of `Create` and `Toggle` (`time.Now().Unix()`,
  `rand.Intn(10000)`, `time.Now()`) are passed as explicit `timestamp`, `random`
  and `now` arguments.
- `internal/app`: the `TodoService` use-case layer (title trimming and validation).
- `internal/adapters/http`: the handlers `handleHealth`, `handleTodos`,
  `handleTodoByID`. JSON serialization and the middleware chain are outside the model;
  a decoded `POST /todos` body is an `Option String` (`none` = undecodable JSON), and
  a `Response` records the status code and the `Allow` header.
-/

/-- `domain.Todo`: the sole aggregate. `time.Time` fields are embedded as `Nat`. -/
structure Todo where
  id : String
  title : String
  done : Bool
  createdAt : Nat
  updatedAt : Nat
deriving DecidableEq, Repr

/-- The memory repo's `map[string]domain.Todo`, as an association list. -/
abbrev Store := List (String × Todo)

/-- Go map read `m.data[id]`. -/
def mapGet (s : Store) (k : String) : Option Todo :=
  match s.find? (fun p => decide (p.1 = k)) with
  | some p => some p.2
  | none => none

/-- Go map assignment `m.data[id] = t`: overwrite the entry with key `k` when
present, append otherwise. -/
def mapInsert (s : Store) (k : String) (v : Todo) : Store :=
  if (s.find? (fun p => decide (p.1 = k))).isSome then
    s.map (fun p => if p.1 = k then (k, v) else p)
  else s ++ [(k, v)]

/-- Go `delete(m.data, id)`. -/
def mapDelete (s : Store) (k : String) : Store :=
  s.filter (fun p => !decide (p.1 = k))

/-- States reachable through the repo's operations: keys are pairwise distinct
(a Go map guarantees this) and each stored record's `id` equals its key
(`Create` and `Toggle` store `t` under `t.ID`). -/
def Store.WF (s : Store) : Prop :=
  (s.map Prod.fst).Nodup ∧ ∀ p ∈ s, (Prod.snd p).id = p.1

/-- The whitespace set of Go's `unicode.IsSpace` on the Latin-1 range, which
`strings.TrimSpace` trims (higher code points are not exercised here). -/
def goIsSpace (c : Char) : Bool :=
  c == ' ' || c == '\t' || c == '\n' || c == '\u000b' || c == '\u000c' ||
  c == '\r' || c == '\u0085' || c == '\u00A0'

/-- `strings.TrimSpace`: drop whitespace from both ends. -/
def trimSpace (s : String) : String :=
  String.mk (((s.data.dropWhile goIsSpace).reverse.dropWhile goIsSpace).reverse)

/-- `fmt.Sprintf("%d-%d", timestamp, random)` in `memRepo.Create`. -/
def genId (timestamp random : Nat) : String :=
  toString timestamp ++ "-" ++ toString random

/-- One step of the inner loop of `memRepo.List`'s sort, walking positions
`j = i+1 .. n-1` with `x` the current value of position `i`: at each position,
swap when the element there has a strictly earlier `CreatedAt` than `x`
(`out[j].CreatedAt.Before(out[i].CreatedAt)`). Returns the final value of
position `i` and the rearranged tail. -/
def selPass (x : Todo) : List Todo → Todo × List Todo
  | [] => (x, [])
  | y :: ys =>
    if y.createdAt < x.createdAt then
      ((selPass y ys).1, x :: (selPass y ys).2)
    else
      ((selPass x ys).1, y :: (selPass x ys).2)

/-- The double loop of `memRepo.List` ("simple bubble sort by CreatedAt for
determinism"): each outer iteration fixes position `i` to the minimum of the
remaining segment via `selPass`. -/
def selSort : List Todo → List Todo
  | [] => []
  | x :: xs => (selPass x xs).1 :: selSort (selPass x xs).2
termination_by l => l.length
decreasing_by
  have h : ∀ (p : Todo) (l : List Todo), (selPass p l).2.length = l.length := by
    intro p l
    induction l generalizing p with
    | nil => rfl
    | cons y ys ih =>
      by_cases hc : y.createdAt < p.createdAt <;> simp [selPass, hc, ih]
  simp [h]

/-- `memRepo.Create`: build the record with a generated id, `Done = false`,
`CreatedAt = UpdatedAt = now`, store it, return it with a nil error. -/
def memRepo.Create (s : Store) (title : String) (timestamp random now : Nat) :
    Except String (Todo × Store) :=
  let id := genId timestamp random
  let t : Todo := ⟨id, title, false, now, now⟩
  Except.ok (t, mapInsert s id t)

/-- `memRepo.List`: collect all values and sort them by `CreatedAt`; the error
is always nil. -/
def memRepo.List (s : Store) : Except String (List Todo) :=
  Except.ok (selSort (s.map Prod.snd))

/-- `memRepo.Toggle`: fail when the id is absent, otherwise flip `Done`, set
`UpdatedAt = now`, store and return the updated record. -/
def memRepo.Toggle (s : Store) (id : String) (now : Nat) :
    Except String (Todo × Store) :=
  match mapGet s id with
  | none => Except.error "todo not found"
  | some t =>
    let t2 : Todo := ⟨t.id, t.title, !t.done, t.createdAt, now⟩
    Except.ok (t2, mapInsert s id t2)

/-- `memRepo.Delete`: fail when the id is absent, otherwise remove the entry. -/
def memRepo.Delete (s : Store) (id : String) : Except String Store :=
  match mapGet s id with
  | none => Except.error "todo not found"
  | some _ => Except.ok (mapDelete s id)

/-- `TodoService.Create`: trim the title, reject an empty result, delegate. -/
def TodoService.Create (s : Store) (title : String) (timestamp random now : Nat) :
    Except String (Todo × Store) :=
  let t := trimSpace title
  if t = "" then Except.error "title is required"
  else memRepo.Create s t timestamp random now

/-- `TodoService.List`: delegates to the repo. -/
def TodoService.List (s : Store) : Except String (List Todo) :=
  memRepo.List s

/-- `TodoService.Toggle`: delegates to the repo. -/
def TodoService.Toggle (s : Store) (id : String) (now : Nat) :
    Except String (Todo × Store) :=
  memRepo.Toggle s id now

/-- `TodoService.Delete`: delegates to the repo. -/
def TodoService.Delete (s : Store) (id : String) : Except String Store :=
  memRepo.Delete s id

/-- `strings.Split(s, "/")` for the single-character separator used by the
handler: split on every occurrence, keeping empty segments; the result is
never the empty list. -/
def splitChars (sep : Char) : List Char → List (List Char)
  | [] => [[]]
  | c :: cs =>
    if c = sep then [] :: splitChars sep cs
    else
      match splitChars sep cs with
      | [] => [[c]]
      | g :: gs => (c :: g) :: gs

/-- `strings.TrimPrefix`, on character lists. -/
def trimPrefixCs (pre cs : List Char) : List Char :=
  if pre.isPrefixOf cs then cs.drop pre.length else cs

/-- What the handler writes that the claims observe: the status code and the
`Allow` header (the JSON body is outside the model). -/
structure Response where
  status : Nat
  allow : Option String
deriving DecidableEq, Repr

/-- `Server.handleHealth`: writes `200 {"status":"ok"}` whatever the method. -/
def Server.handleHealth (method : String) : Response :=
  ⟨200, none⟩

/-- `Server.handleTodos`: GET lists (500 on a repo error), POST decodes the
body (400 on bad JSON), creates (400 on a service error, else 201); any other
method gets 405 with `Allow: GET, POST`. Returns the response and the store
after the request. -/
def Server.handleTodos (s : Store) (method : String) (body : Option String)
    (timestamp random now : Nat) : Response × Store :=
  if method = "GET" then
    match TodoService.List s with
    | Except.error _ => (⟨500, none⟩, s)
    | Except.ok _ => (⟨200, none⟩, s)
  else if method = "POST" then
    match body with
    | none => (⟨400, none⟩, s)
    | some title =>
      match TodoService.Create s title timestamp random now with
      | Except.error _ => (⟨400, none⟩, s)
      | Except.ok p => (⟨201, none⟩, p.2)
  else (⟨405, some "GET, POST"⟩, s)

/-- `Server.handleTodoByID`: split the path after `/todos/`; empty id is 400;
`{id}/toggle` accepts only POST (405 with `Allow: POST` otherwise) and maps a
toggle failure to 404; otherwise DELETE maps a delete failure to 404 and
success to 204, and any other method gets 405 with `Allow: DELETE, POST`. -/
def Server.handleTodoByID (s : Store) (method : String) (path : String) (now : Nat) :
    Response × Store :=
  let parts := (splitChars '/' (trimPrefixCs "/todos/".data path.data)).map String.mk
  match parts with
  | [] => (⟨400, none⟩, s)
  | id :: rest =>
    if id = "" then (⟨400, none⟩, s)
    else if rest = ["toggle"] then
      if method ≠ "POST" then (⟨405, some "POST"⟩, s)
      else
        match TodoService.Toggle s id now with
        | Except.error _ => (⟨404, none⟩, s)
        | Except.ok p => (⟨200, none⟩, p.2)
    else if method = "DELETE" then
      match TodoService.Delete s id with
      | Except.error _ => (⟨404, none⟩, s)
      | Except.ok s2 => (⟨204, none⟩, s2)
    else (⟨405, some "DELETE, POST"⟩, s)

/-- A sequence of `memRepo.Create` calls, each fed by its own `(title,
timestamp, random, now)` nondeterministic inputs. -/
def createMany (s : Store) : List (String × Nat × Nat × Nat) → Store
  | [] => s
  | (title, timestamp, random, now) :: rest =>
    match memRepo.Create s title timestamp random now with
    | Except.ok p => createMany p.2 rest
    | Except.error _ => s

/-! Helper lemmas about the sort in `memRepo.List`. -/

theorem selPass_length (x : Todo) (l : List Todo) :
    (selPass x l).2.length = l.length := by
  induction l generalizing x with
  | nil => rfl
  | cons y ys ih =>
    by_cases hc : y.createdAt < x.createdAt <;> simp [selPass, hc, ih]

theorem selPass_perm (x : Todo) (l : List Todo) :
    ((selPass x l).1 :: (selPass x l).2).Perm (x :: l) := by
  induction l generalizing x with
  | nil => simp [selPass]
  | cons y ys ih =>
    by_cases hc : y.createdAt < x.createdAt
    · simp only [selPass, hc, if_pos]
      exact (List.Perm.swap x (selPass y ys).1 (selPass y ys).2).trans
        (List.Perm.cons x (ih y))
    · simp only [selPass, hc, if_neg, not_false_iff]
      exact ((List.Perm.swap y (selPass x ys).1 (selPass x ys).2).trans
        (List.Perm.cons y (ih x))).trans (List.Perm.swap x y ys)

theorem selPass_fst_le (x : Todo) (l : List Todo) :
    (selPass x l).1.createdAt ≤ x.createdAt := by
  induction l generalizing x with
  | nil => exact le_refl _
  | cons y ys ih =>
    by_cases hc : y.createdAt < x.createdAt
    · simpa [selPass, hc] using le_trans (ih y) (le_of_lt hc)
    · simpa [selPass, hc] using ih x

theorem selPass_fst_le_mem (x : Todo) (l : List Todo) :
    ∀ y ∈ (selPass x l).2, (selPass x l).1.createdAt ≤ y.createdAt := by
  induction l generalizing x with
  | nil => intro y hy; simp [selPass] at hy
  | cons y ys ih =>
    intro b hb
    by_cases hc : y.createdAt < x.createdAt
    · simp only [selPass, hc, if_pos] at hb ⊢
      rcases List.mem_cons.mp hb with rfl | hb'
      · exact le_trans (selPass_fst_le y ys) (le_of_lt hc)
      · exact ih y b hb'
    · simp only [selPass, hc, if_neg, not_false_iff] at hb ⊢
      rcases List.mem_cons.mp hb with rfl | hb'
      · exact le_trans (selPass_fst_le x ys) (le_of_not_lt hc)
      · exact ih x b hb'

theorem selSort_perm (l : List Todo) : (selSort l).Perm l := by
  induction l using selSort.induct with
  | case1 => simp [selSort]
  | case2 x xs ih =>
    rw [selSort]
    exact (List.Perm.cons _ ih).trans (selPass_perm x xs)

theorem selSort_sorted (l : List Todo) :
    (selSort l).Pairwise (fun a b => a.createdAt ≤ b.createdAt) := by
  induction l using selSort.induct with
  | case1 => simp [selSort]
  | case2 x xs ih =>
    rw [selSort]
    refine List.Pairwise.cons ?_ ih
    intro b hb
    exact selPass_fst_le_mem x xs b ((selSort_perm (selPass x xs).2).subset hb)

/-! Helper lemmas about the Go-map embedding. -/

theorem mapGet_cons (p : String × Todo) (rest : Store) (k : String) :
    mapGet (p :: rest) k = if p.1 = k then some p.2 else mapGet rest k := by
  unfold mapGet
  by_cases hp : p.1 = k
  · rw [List.find?_cons_of_pos] <;> simp [hp]
  · rw [List.find?_cons_of_neg] <;> simp [hp]

theorem mapGet_eq_none_iff (s : Store) (k : String) :
    mapGet s k = none ↔ ∀ p ∈ s, p.1 ≠ k := by
  induction s with
  | nil => simp [mapGet, List.find?]
  | cons p rest ih =>
    rw [mapGet_cons]
    by_cases hp : p.1 = k
    · simp [hp]
    · simp [hp, ih]

theorem mapGet_isSome_iff (s : Store) (k : String) :
    (mapGet s k).isSome ↔ ∃ p ∈ s, p.1 = k := by
  induction s with
  | nil => simp [mapGet, List.find?]
  | cons p rest ih =>
    rw [mapGet_cons]
    by_cases hp : p.1 = k
    · simp [hp]
    · simp [hp, ih]

theorem mapInsert_fresh (s : Store) (k : String) (v : Todo)
    (h : ∀ p ∈ s, p.1 ≠ k) : mapInsert s k v = s ++ [(k, v)] := by
  unfold mapInsert
  have hf : s.find? (fun p => decide (p.1 = k)) = none := by
    rw [List.find?_eq_none]
    intro p hp
    simpa using h p hp
  simp [hf]

theorem mapInsert_found (s : Store) (k : String) (v : Todo)
    (h : ∃ p ∈ s, p.1 = k) :
    mapInsert s k v = s.map (fun p => if p.1 = k then (k, v) else p) := by
  unfold mapInsert
  obtain ⟨p, hp, hk⟩ := h
  have hf : (s.find? (fun p => decide (p.1 = k))).isSome := by
    rw [List.find?_isSome]
    exact ⟨p, hp, by simpa using hk⟩
  simp [hf]

theorem mapGet_map_replace (s : Store) (k : String) (v : Todo)
    (h : ∃ p ∈ s, p.1 = k) :
    mapGet (s.map (fun p => if p.1 = k then (k, v) else p)) k = some v := by
  induction s with
  | nil => simp at h
  | cons p rest ih =>
    by_cases hp : p.1 = k
    · simp [mapGet_cons, hp]
    · obtain ⟨q, hq, hqk⟩ := h
      rcases List.mem_cons.mp hq with rfl | hq2
      · exact absurd hqk hp
      · simpa [mapGet_cons, hp] using ih ⟨q, hq2, hqk⟩

theorem mapGet_append_single (s : Store) (k : String) (v : Todo)
    (h : ∀ p ∈ s, p.1 ≠ k) :
    mapGet (s ++ [(k, v)]) k = some v := by
  induction s with
  | nil => simp [mapGet, List.find?]
  | cons p rest ih =>
    have hp : p.1 ≠ k := h p (by simp)
    simp only [List.cons_append, mapGet_cons, hp, if_false]
    exact ih fun q hq => h q (by simp [hq])

theorem mapGet_mapInsert_self (s : Store) (k : String) (v : Todo) :
    mapGet (mapInsert s k v) k = some v := by
  by_cases h : ∃ p ∈ s, p.1 = k
  · rw [mapInsert_found s k v h]
    exact mapGet_map_replace s k v h
  · push_neg at h
    rw [mapInsert_fresh s k v h]
    exact mapGet_append_single s k v h

theorem mapGet_mapInsert_ne (s : Store) (k id : String) (v : Todo) (h : k ≠ id) :
    mapGet (mapInsert s id v) k = mapGet s k := by
  by_cases hex : ∃ p ∈ s, p.1 = id
  · rw [mapInsert_found s id v hex]
    clear hex
    induction s with
    | nil => rfl
    | cons p rest ih =>
      by_cases hp : p.1 = id
      · have hk : p.1 ≠ k := fun hh => h (hh.symm.trans hp)
        have hik : id ≠ k := fun hh => h hh.symm
        rw [List.map_cons, if_pos hp, mapGet_cons, mapGet_cons]
        simp [hik, hk, ih]
      · rw [List.map_cons, if_neg hp, mapGet_cons, mapGet_cons]
        by_cases hpk : p.1 = k <;> simp [hpk, ih]
  · push_neg at hex
    rw [mapInsert_fresh s id v hex]
    have hik : id ≠ k := fun hh => h hh.symm
    induction s with
    | nil => simp [mapGet, List.find?, hik]
    | cons p rest ih =>
      simp only [List.cons_append, mapGet_cons]
      by_cases hp : p.1 = k
      · simp [hp]
      · simp only [hp, if_false]
        exact ih fun q hq => hex q (by simp [hq])

theorem mapGet_mapDelete_self (s : Store) (k : String) :
    mapGet (mapDelete s k) k = none := by
  rw [mapGet_eq_none_iff]
  intro p hp
  have := List.of_mem_filter hp
  simpa using this

theorem mapGet_mapDelete_ne (s : Store) (k id : String) (h : k ≠ id) :
    mapGet (mapDelete s id) k = mapGet s k := by
  induction s with
  | nil => rfl
  | cons p rest ih =>
    by_cases hp : p.1 = id
    · have hstep : mapDelete (p :: rest) id = mapDelete rest id := by
        simp [mapDelete, List.filter_cons, hp]
      have hk : p.1 ≠ k := fun hh => h (hh ▸ hp)
      rw [hstep, ih, mapGet_cons]
      simp [hk]
    · have hstep : mapDelete (p :: rest) id = p :: mapDelete rest id := by
        simp [mapDelete, List.filter_cons, hp]
      rw [hstep, mapGet_cons, mapGet_cons, ih]

/-! Counting and well-formedness lemmas for the store. -/

theorem countP_vals_zero (s : Store) (v : Todo) (k : String) (hv : v.id = k)
    (h : ∀ p ∈ s, p.1 ≠ k) (hids : ∀ p ∈ s, (Prod.snd p).id = p.1) :
    (s.map Prod.snd).countP (fun x => decide (x = v)) = 0 := by
  rw [List.countP_eq_zero]
  intro x hx
  obtain ⟨p, hp, rfl⟩ := List.mem_map.mp hx
  simp only [decide_eq_true_eq]
  intro hxy
  exact h p hp (by rw [← hids p hp, hxy, hv])

theorem countP_map_replace (s : Store) (k : String) (v : Todo) (hv : v.id = k)
    (hnd : (s.map Prod.fst).Nodup) (hids : ∀ p ∈ s, (Prod.snd p).id = p.1)
    (hex : ∃ p ∈ s, p.1 = k) :
    ((s.map (fun p => if p.1 = k then (k, v) else p)).map Prod.snd).countP
      (fun x => decide (x = v)) = 1 := by
  induction s with
  | nil => simp at hex
  | cons p rest ih =>
    simp only [List.map_cons, List.countP_cons]
    by_cases hp : p.1 = k
    · have hrest : ∀ q ∈ rest, q.1 ≠ k := by
        intro q hq hqk
        have : p.1 ∈ rest.map Prod.fst := by
          rw [hp, ← hqk]; exact List.mem_map.mpr ⟨q, hq, rfl⟩
        exact (List.nodup_cons.mp (by simpa using hnd)).1 this
      have hmap : rest.map (fun q => if q.1 = k then (k, v) else q) = rest := by
        have := List.map_congr_left (l := rest)
          (f := fun q => if q.1 = k then (k, v) else q) (g := id)
          (fun q hq => by simp [hrest q hq])
        simpa using this
      rw [hmap, if_pos hp]
      simp only [Prod.snd]
      rw [countP_vals_zero rest v k hv hrest (fun q hq => hids q (by simp [hq]))]
      simp
    · have hval : (Prod.snd p) ≠ v := by
        intro hh
        exact hp (by rw [← hids p (by simp), hh, hv])
      rw [if_neg hp]
      have hex2 : ∃ q ∈ rest, q.1 = k := by
        obtain ⟨q, hq, hqk⟩ := hex
        rcases List.mem_cons.mp hq with rfl | hq2
        · exact absurd hqk hp
        · exact ⟨q, hq2, hqk⟩
      rw [ih (by simpa using List.Nodup.of_cons hnd)
          (fun q hq => hids q (by simp [hq])) hex2]
      simp [hval]

theorem countP_vals_mapInsert (s : Store) (k : String) (v : Todo)
    (hWF : Store.WF s) (hv : v.id = k) :
    ((mapInsert s k v).map Prod.snd).countP (fun x => decide (x = v)) = 1 := by
  by_cases hex : ∃ p ∈ s, p.1 = k
  · rw [mapInsert_found s k v hex]
    exact countP_map_replace s k v hv hWF.1 hWF.2 hex
  · push_neg at hex
    rw [mapInsert_fresh s k v hex]
    simp only [List.map_append, List.countP_append]
    rw [countP_vals_zero s v k hv hex hWF.2]
    simp

theorem WF_append_fresh (s : Store) (k : String) (v : Todo)
    (hWF : Store.WF s) (hv : v.id = k) (h : ∀ p ∈ s, p.1 ≠ k) :
    Store.WF (s ++ [(k, v)]) := by
  constructor
  · simp only [List.map_append, List.map_cons, List.map_nil]
    rw [List.nodup_append]
    refine ⟨hWF.1, by simp, ?_⟩
    intro x hx
    obtain ⟨p, hp, rfl⟩ := List.mem_map.mp hx
    simp [h p hp]
  · intro p hp
    rcases List.mem_append.mp hp with hp1 | hp1
    · exact hWF.2 p hp1
    · simp only [List.mem_singleton] at hp1
      rw [hp1]
      exact hv

/-! Path-parsing lemmas for `handleTodoByID`. -/

theorem stringMk_data (s : String) : String.mk s.data = s := rfl

theorem splitChars_of_not_mem (sep : Char) (cs : List Char) (h : sep ∉ cs) :
    splitChars sep cs = [cs] := by
  induction cs with
  | nil => rfl
  | cons c cs ih =>
    rw [List.mem_cons] at h
    push_neg at h
    have hc : ¬ c = sep := fun hh => h.1 hh.symm
    simp [splitChars, hc, ih h.2]

theorem splitChars_append_sep (sep : Char) (a b : List Char) (ha : sep ∉ a) :
    splitChars sep (a ++ sep :: b) = a :: splitChars sep b := by
  induction a with
  | nil => simp [splitChars]
  | cons c a ih =>
    rw [List.mem_cons] at ha
    push_neg at ha
    have hc : ¬ c = sep := fun hh => ha.1 hh.symm
    simp [splitChars, hc, ih ha.2]

theorem trimPrefixCs_append (pre rest : List Char) :
    trimPrefixCs pre (pre ++ rest) = rest := by
  unfold trimPrefixCs
  have h1 : pre.isPrefixOf (pre ++ rest) = true := by
    induction pre with
    | nil => simp [List.isPrefixOf]
    | cons c cs ih => simp [List.isPrefixOf, ih]
  rw [h1]
  simp

theorem parts_single (id : String) (h2 : '/' ∉ id.data) :
    (splitChars '/' (trimPrefixCs "/todos/".data ("/todos/" ++ id).data)).map
      String.mk = [id] := by
  have hdata : ("/todos/" ++ id).data = "/todos/".data ++ id.data := by
    simp [String.data_append]
  rw [hdata, trimPrefixCs_append, splitChars_of_not_mem '/' id.data h2]
  simp [stringMk_data]

theorem parts_pair (id sfx : String) (h2 : '/' ∉ id.data) (h4 : '/' ∉ sfx.data) :
    (splitChars '/' (trimPrefixCs "/todos/".data
      ("/todos/" ++ id ++ "/" ++ sfx).data)).map String.mk = [id, sfx] := by
  have hdata : ("/todos/" ++ id ++ "/" ++ sfx).data =
      "/todos/".data ++ (id.data ++ '/' :: sfx.data) := by
    simp [String.data_append]
  rw [hdata, trimPrefixCs_append, splitChars_append_sep '/' id.data sfx.data h2,
      splitChars_of_not_mem '/' sfx.data h4]
  simp [stringMk_data]

/-! The claims. -/

/-- C3: for every store state, `memRepo.List` succeeds and returns every stored
task (a permutation of the store's values) ordered by ascending `createdAt`,
and the empty store yields the empty sequence. -/
theorem list_sorted_complete (s : Store) :
    (∃ l, memRepo.List s = Except.ok l ∧ l.Perm (s.map Prod.snd) ∧
      l.Pairwise (fun a b => a.createdAt ≤ b.createdAt)) ∧
    memRepo.List ([] : Store) = Except.ok ([] : List Todo) := by
  constructor
  · exact ⟨selSort (s.map Prod.snd), rfl, selSort_perm _, selSort_sorted _⟩
  · simp [memRepo.List, selSort]

/-- C10: the in-memory store's `Create` and `List` return a nil error for every
input and store state, so the 500 branch of `handleTodos` for listing is
unreachable and GET `/todos` always answers 200. -/
theorem list_create_total_get_ok (s : Store) (title : String)
    (timestamp random now : Nat) (body : Option String) :
    (memRepo.Create s title timestamp random now).isOk = true ∧
    (memRepo.List s).isOk = true ∧
    (Server.handleTodos s "GET" body timestamp random now).1.status = 200 := by
  refine ⟨rfl, rfl, ?_⟩
  simp [Server.handleTodos, TodoService.List, memRepo.List]

/-- C2: a title that trims to empty (for example `""` or `"   "`) makes
`TodoService.Create` fail with the validation error, and the handler turns the
failure into a 400 response with the store unchanged. -/
theorem create_blank_title_rejected (s : Store) (title : String)
    (timestamp random now : Nat) (h : trimSpace title = "") :
    TodoService.Create s title timestamp random now =
      Except.error "title is required" ∧
    Server.handleTodos s "POST" (some title) timestamp random now =
      (⟨400, none⟩, s) := by
  constructor
  · simp [TodoService.Create, h]
  · simp [Server.handleTodos, TodoService.Create, h]

theorem create_blank_title_rejected_witness :
    (trimSpace "   " = "" ∧
      TodoService.Create [] "   " 1 2 3 = Except.error "title is required" ∧
      Server.handleTodos [] "POST" (some "   ") 1 2 3 =
        (⟨400, none⟩, ([] : Store))) ∧
    (trimSpace "" = "" ∧
      TodoService.Create [] "" 1 2 3 = Except.error "title is required" ∧
      Server.handleTodos [] "POST" (some "") 1 2 3 =
        (⟨400, none⟩, ([] : Store))) := by
  have h1 := create_blank_title_rejected [] "   " 1 2 3 (by decide)
  have h2 := create_blank_title_rejected [] "" 1 2 3 (by decide)
  exact ⟨⟨by decide, h1.1, h1.2⟩, ⟨by decide, h2.1, h2.2⟩⟩

/-- C4: toggling an id present in the store flips that task's `done` flag and
strictly advances its `updatedAt` (the wall clock having moved past the task's
last update), and a second toggle restores the original `done` value. -/
theorem toggle_flips_and_advances (s : Store) (id : String) (t : Todo)
    (now1 now2 : Nat) (hget : mapGet s id = some t) (hlt : t.updatedAt < now1) :
    ∃ t1 s1 t2 s2,
      memRepo.Toggle s id now1 = Except.ok (t1, s1) ∧
      t1.done = !t.done ∧ t.updatedAt < t1.updatedAt ∧
      memRepo.Toggle s1 id now2 = Except.ok (t2, s2) ∧
      t2.done = t.done := by
  refine ⟨⟨t.id, t.title, !t.done, t.createdAt, now1⟩,
      mapInsert s id ⟨t.id, t.title, !t.done, t.createdAt, now1⟩,
      ⟨t.id, t.title, !!t.done, t.createdAt, now2⟩,
      mapInsert (mapInsert s id ⟨t.id, t.title, !t.done, t.createdAt, now1⟩) id
        ⟨t.id, t.title, !!t.done, t.createdAt, now2⟩,
      ?_, rfl, hlt, ?_, by simp⟩
  · simp [memRepo.Toggle, hget]
  · simp [memRepo.Toggle, mapGet_mapInsert_self]

theorem toggle_flips_and_advances_witness :
    mapGet [("k", (⟨"k", "t", false, 1, 1⟩ : Todo))] "k" =
      some ⟨"k", "t", false, 1, 1⟩ ∧
    (1 : Nat) < 2 ∧
    ∃ t1 s1 t2 s2,
      memRepo.Toggle [("k", (⟨"k", "t", false, 1, 1⟩ : Todo))] "k" 2 =
        Except.ok (t1, s1) ∧
      t1.done = !false ∧ 1 < t1.updatedAt ∧
      memRepo.Toggle s1 "k" 3 = Except.ok (t2, s2) ∧
      t2.done = false := by
  refine ⟨by decide, by decide, ?_⟩
  exact toggle_flips_and_advances _ "k" ⟨"k", "t", false, 1, 1⟩ 2 3
    (by decide) (by decide)

theorem parts_toggle (id : String) (h2 : '/' ∉ id.data) :
    (splitChars '/' (trimPrefixCs "/todos/".data
      ("/todos/" ++ id ++ "/toggle").data)).map String.mk = [id, "toggle"] := by
  have hdata : ("/todos/" ++ id ++ "/toggle").data =
      "/todos/".data ++ (id.data ++ '/' :: "toggle".data) := by
    simp [String.data_append]
  rw [hdata, trimPrefixCs_append, splitChars_append_sep '/' id.data _ h2,
      splitChars_of_not_mem '/' "toggle".data (by decide)]
  simp [stringMk_data]

/-- C5: toggling or deleting an id absent from the store fails with the
not-found error, and the handler answers 404 with the store unchanged, both for
`POST /todos/{id}/toggle` and for `DELETE /todos/{id}`. -/
theorem toggle_delete_absent_id (s : Store) (id : String) (now : Nat)
    (hget : mapGet s id = none) (h1 : id ≠ "") (h2 : '/' ∉ id.data) :
    memRepo.Toggle s id now = Except.error "todo not found" ∧
    memRepo.Delete s id = Except.error "todo not found" ∧
    Server.handleTodoByID s "POST" ("/todos/" ++ id ++ "/toggle") now =
      (⟨404, none⟩, s) ∧
    Server.handleTodoByID s "DELETE" ("/todos/" ++ id) now =
      (⟨404, none⟩, s) := by
  have htog : memRepo.Toggle s id now = Except.error "todo not found" := by
    simp [memRepo.Toggle, hget]
  have hdel : memRepo.Delete s id = Except.error "todo not found" := by
    simp [memRepo.Delete, hget]
  refine ⟨htog, hdel, ?_, ?_⟩
  · simp only [Server.handleTodoByID, parts_toggle id h2]
    simp [h1, TodoService.Toggle, htog]
  · simp only [Server.handleTodoByID, parts_single id h2]
    simp [h1, TodoService.Delete, hdel]

theorem toggle_delete_absent_id_witness :
    mapGet ([] : Store) "x" = none ∧ "x" ≠ "" ∧ '/' ∉ "x".data ∧
    memRepo.Toggle [] "x" 7 = Except.error "todo not found" ∧
    memRepo.Delete [] "x" = Except.error "todo not found" ∧
    Server.handleTodoByID [] "POST" "/todos/x/toggle" 7 =
      (⟨404, none⟩, ([] : Store)) ∧
    Server.handleTodoByID [] "DELETE" "/todos/x" 7 =
      (⟨404, none⟩, ([] : Store)) := by
  have h := toggle_delete_absent_id [] "x" 7 (by decide) (by decide) (by decide)
  exact ⟨by decide, by decide, by decide, h.1, h.2.1,
    by simpa using h.2.2.1, by simpa using h.2.2.2⟩

/-- C6: deleting an id present in the store succeeds and removes exactly that
record: the following listing has no task with that id, lookups of every other
key are unchanged, and deleting the same id again fails with the not-found
error. -/
theorem delete_removes_exactly (s : Store) (id : String) (t : Todo)
    (hWF : Store.WF s) (hget : mapGet s id = some t) :
    ∃ s2, memRepo.Delete s id = Except.ok s2 ∧
      (∃ l, memRepo.List s2 = Except.ok l ∧ ∀ u ∈ l, u.id ≠ id) ∧
      (∀ k, k ≠ id → mapGet s2 k = mapGet s k) ∧
      memRepo.Delete s2 id = Except.error "todo not found" := by
  refine ⟨mapDelete s id, by simp [memRepo.Delete, hget], ?_, ?_, ?_⟩
  · refine ⟨selSort ((mapDelete s id).map Prod.snd), rfl, ?_⟩
    intro u hu
    have hu2 : u ∈ (mapDelete s id).map Prod.snd := (selSort_perm _).subset hu
    obtain ⟨p, hp, rfl⟩ := List.mem_map.mp hu2
    have hmem := List.mem_of_mem_filter hp
    have hne : p.1 ≠ id := by simpa using List.of_mem_filter hp
    rw [hWF.2 p hmem]
    exact hne
  · intro k hk
    exact mapGet_mapDelete_ne s k id hk
  · simp [memRepo.Delete, mapGet_mapDelete_self]

theorem delete_removes_exactly_witness :
    Store.WF [("k", (⟨"k", "t", false, 1, 1⟩ : Todo))] ∧
    mapGet [("k", (⟨"k", "t", false, 1, 1⟩ : Todo))] "k" =
      some ⟨"k", "t", false, 1, 1⟩ ∧
    ∃ s2, memRepo.Delete [("k", (⟨"k", "t", false, 1, 1⟩ : Todo))] "k" =
        Except.ok s2 ∧
      (∃ l, memRepo.List s2 = Except.ok l ∧ ∀ u ∈ l, u.id ≠ "k") ∧
      (∀ k2, k2 ≠ "k" →
        mapGet s2 k2 = mapGet [("k", (⟨"k", "t", false, 1, 1⟩ : Todo))] k2) ∧
      memRepo.Delete s2 "k" = Except.error "todo not found" := by
  have hWF : Store.WF [("k", (⟨"k", "t", false, 1, 1⟩ : Todo))] := by
    unfold Store.WF
    exact ⟨by decide, by decide⟩
  exact ⟨hWF, by decide,
    delete_removes_exactly _ "k" ⟨"k", "t", false, 1, 1⟩ hWF (by decide)⟩

/-- C1: a title whose trimmed form is non-empty makes create succeed with a
task having `done = false` and `createdAt = updatedAt`, and the subsequent
listing contains the new task exactly once. -/
theorem create_then_list_once (s : Store) (title : String)
    (timestamp random now : Nat) (hWF : Store.WF s)
    (ht : trimSpace title ≠ "") :
    ∃ t s2, TodoService.Create s title timestamp random now =
        Except.ok (t, s2) ∧
      t.done = false ∧ t.createdAt = t.updatedAt ∧
      ∃ l, TodoService.List s2 = Except.ok l ∧
        l.countP (fun x => decide (x = t)) = 1 := by
  refine ⟨⟨genId timestamp random, trimSpace title, false, now, now⟩,
      mapInsert s (genId timestamp random)
        ⟨genId timestamp random, trimSpace title, false, now, now⟩,
      ?_, rfl, rfl, ?_⟩
  · simp [TodoService.Create, memRepo.Create, ht]
  · refine ⟨_, rfl, ?_⟩
    rw [List.Perm.countP_eq _ (selSort_perm _)]
    exact countP_vals_mapInsert s (genId timestamp random) _ hWF rfl

theorem create_then_list_once_witness :
    Store.WF ([] : Store) ∧ trimSpace "Buy milk" ≠ "" ∧
    ∃ t s2, TodoService.Create [] "Buy milk" 1 2 3 = Except.ok (t, s2) ∧
      t.done = false ∧ t.createdAt = t.updatedAt ∧
      ∃ l, TodoService.List s2 = Except.ok l ∧
        l.countP (fun x => decide (x = t)) = 1 := by
  have hWF : Store.WF ([] : Store) := by
    unfold Store.WF
    exact ⟨by decide, by decide⟩
  exact ⟨hWF, by decide, create_then_list_once [] "Buy milk" 1 2 3 hWF (by decide)⟩

/-- C9: a `DELETE /todos/{id}/{suffix}` request whose trailing segment is not
exactly `"toggle"` is handled like `DELETE /todos/{id}`: the trailing segment
is ignored and `delete(id)` is performed rather than the request rejected. -/
theorem delete_ignores_trailing_segment (s : Store) (id sfx : String)
    (now : Nat) (h1 : id ≠ "") (h2 : '/' ∉ id.data) (h3 : sfx ≠ "toggle")
    (h4 : '/' ∉ sfx.data) :
    Server.handleTodoByID s "DELETE" ("/todos/" ++ id ++ "/" ++ sfx) now =
      Server.handleTodoByID s "DELETE" ("/todos/" ++ id) now ∧
    Server.handleTodoByID s "DELETE" ("/todos/" ++ id ++ "/" ++ sfx) now =
      (match TodoService.Delete s id with
        | Except.ok s2 => (⟨204, none⟩, s2)
        | Except.error _ => (⟨404, none⟩, s)) := by
  have hrest : [sfx] ≠ ["toggle"] := by simpa using h3
  constructor
  · rcases hD : TodoService.Delete s id with e | s2 <;>
      simp only [Server.handleTodoByID, parts_pair id sfx h2 h4,
        parts_single id h2] <;>
      simp [h1, hrest, hD]
  · rcases hD : TodoService.Delete s id with e | s2 <;>
      simp only [Server.handleTodoByID, parts_pair id sfx h2 h4] <;>
      simp [h1, hrest, hD]

theorem delete_ignores_trailing_segment_witness :
    "abc" ≠ "" ∧ '/' ∉ "abc".data ∧ "junk" ≠ "toggle" ∧ '/' ∉ "junk".data ∧
    (Server.handleTodoByID [] "DELETE" "/todos/abc/junk" 0 =
      Server.handleTodoByID [] "DELETE" "/todos/abc" 0 ∧
    Server.handleTodoByID [] "DELETE" "/todos/abc/junk" 0 =
      (match TodoService.Delete [] "abc" with
        | Except.ok s2 => (⟨204, none⟩, s2)
        | Except.error _ => (⟨404, none⟩, ([] : Store)))) := by
  have h := delete_ignores_trailing_segment [] "abc" "junk" 0
    (by decide) (by decide) (by decide) (by decide)
  exact ⟨by decide, by decide, by decide, by decide, by simpa using h⟩

/-- C7 counterexample: from the empty store, two creates that both succeed but
draw the same timestamp second and the same random number generate the same id
`"1-2"`; the second map assignment overwrites the first task, so the store
holds one entry and `list()` returns one task, not two with distinct ids. -/
theorem create_collision_loses_task :
    memRepo.Create [] "a" 1 2 5 =
      Except.ok ((⟨"1-2", "a", false, 5, 5⟩ : Todo),
        [("1-2", (⟨"1-2", "a", false, 5, 5⟩ : Todo))]) ∧
    memRepo.Create [("1-2", (⟨"1-2", "a", false, 5, 5⟩ : Todo))] "b" 1 2 6 =
      Except.ok ((⟨"1-2", "b", false, 6, 6⟩ : Todo),
        [("1-2", (⟨"1-2", "b", false, 6, 6⟩ : Todo))]) ∧
    memRepo.List [("1-2", (⟨"1-2", "b", false, 6, 6⟩ : Todo))] =
      Except.ok [(⟨"1-2", "b", false, 6, 6⟩ : Todo)] := by
  refine ⟨rfl, rfl, ?_⟩
  simp [memRepo.List, selSort, selPass]

theorem createMany_fresh (inputs : List (String × Nat × Nat × Nat)) (s : Store)
    (hWF : Store.WF s)
    (hnd : (inputs.map (fun i => genId i.2.1 i.2.2.1)).Nodup)
    (hfresh : ∀ i ∈ inputs, ∀ p ∈ s, p.1 ≠ genId i.2.1 i.2.2.1) :
    Store.WF (createMany s inputs) ∧
    (createMany s inputs).length = s.length + inputs.length := by
  induction inputs generalizing s with
  | nil => simpa [createMany] using hWF
  | cons i rest ih =>
    obtain ⟨title, ts, rnd, now⟩ := i
    have hfr : ∀ p ∈ s, p.1 ≠ genId ts rnd :=
      hfresh (title, ts, rnd, now) (by simp)
    have hins : mapInsert s (genId ts rnd)
        ⟨genId ts rnd, title, false, now, now⟩ =
        s ++ [(genId ts rnd, ⟨genId ts rnd, title, false, now, now⟩)] :=
      mapInsert_fresh s _ _ hfr
    have hWF2 : Store.WF
        (s ++ [(genId ts rnd, ⟨genId ts rnd, title, false, now, now⟩)]) :=
      WF_append_fresh s _ _ hWF rfl hfr
    have hnd2 : (rest.map (fun i => genId i.2.1 i.2.2.1)).Nodup :=
      (List.nodup_cons.mp (by simpa using hnd)).2
    have hnotmem : genId ts rnd ∉ rest.map (fun i => genId i.2.1 i.2.2.1) :=
      (List.nodup_cons.mp (by simpa using hnd)).1
    have hfresh2 : ∀ i ∈ rest,
        ∀ p ∈ s ++ [(genId ts rnd, ⟨genId ts rnd, title, false, now, now⟩)],
        p.1 ≠ genId i.2.1 i.2.2.1 := by
      intro i hi p hp
      rcases List.mem_append.mp hp with hp1 | hp1
      · exact hfresh i (by simp [hi]) p hp1
      · simp only [List.mem_singleton] at hp1
        rw [hp1]
        intro hh
        apply hnotmem
        have hh2 : genId ts rnd = genId i.2.1 i.2.2.1 := hh
        rw [hh2]
        exact List.mem_map.mpr ⟨i, hi, rfl⟩
    have hstep : createMany s ((title, ts, rnd, now) :: rest) =
        createMany (s ++
          [(genId ts rnd, ⟨genId ts rnd, title, false, now, now⟩)]) rest := by
      simp [createMany, memRepo.Create, hins]
    rw [hstep]
    have := ih _ hWF2 hnd2 hfresh2
    refine ⟨this.1, ?_⟩
    rw [this.2]
    simp [List.length_append]
    omega

/-- C7 (amended): no two tasks in the store ever share an id at any one time
(the map's keys stay pairwise distinct), and N successful creates from the
empty store whose generated timestamp-random ids are pairwise distinct leave N
entries with N distinct ids in `list()`; when a generated id collides with an
existing one, the assignment overwrites that task instead of adding one. -/
theorem create_distinct_ids_unique (inputs : List (String × Nat × Nat × Nat))
    (hnd : (inputs.map (fun i => genId i.2.1 i.2.2.1)).Nodup) :
    ((createMany [] inputs).map Prod.fst).Nodup ∧
    ∃ l, memRepo.List (createMany [] inputs) = Except.ok l ∧
      l.length = inputs.length ∧ (l.map Todo.id).Nodup := by
  have h := createMany_fresh inputs [] (by exact ⟨List.nodup_nil, by simp⟩)
    hnd (by simp)
  refine ⟨h.1.1, selSort ((createMany [] inputs).map Prod.snd), rfl, ?_, ?_⟩
  · rw [(selSort_perm _).length_eq, List.length_map, h.2]
    simp
  · have hp2 : ((createMany [] inputs).map Prod.snd).map Todo.id =
        (createMany [] inputs).map Prod.fst := by
      rw [List.map_map]
      exact List.map_congr_left (fun p hp => h.1.2 p hp)
    have hperm : ((selSort ((createMany [] inputs).map Prod.snd)).map
        Todo.id).Perm ((createMany [] inputs).map Prod.fst) := by
      rw [← hp2]
      exact (selSort_perm _).map Todo.id
    exact hperm.nodup_iff.mpr h.1.1

theorem create_distinct_ids_unique_witness :
    ([("a", 1, 2, 3), ("b", 1, 3, 4)].map
      (fun i => genId i.2.1 i.2.2.1)).Nodup ∧
    (((createMany [] [("a", 1, 2, 3), ("b", 1, 3, 4)]).map Prod.fst).Nodup ∧
    ∃ l, memRepo.List (createMany [] [("a", 1, 2, 3), ("b", 1, 3, 4)]) =
        Except.ok l ∧
      l.length = 2 ∧ (l.map Todo.id).Nodup) := by
  exact ⟨by decide, create_distinct_ids_unique _ (by decide)⟩

/-- C8 counterexample: DELETE is not a supported operation on the known path
`/health` (only GET is), yet the handler answers 200 with no `Allow` header
rather than 405. -/
theorem health_ignores_method :
    Server.handleHealth "DELETE" = ⟨200, none⟩ ∧
    (Server.handleHealth "DELETE").status ≠ 405 ∧
    (Server.handleHealth "DELETE").allow = none := by
  exact ⟨rfl, by decide, rfl⟩

/-- C8 (amended): on `/todos` every method other than GET and POST gets 405
with `Allow: GET, POST`; on `/todos/{id}/toggle` every method other than POST
gets 405 with `Allow: POST`; on `/todos/{id}` every method other than DELETE
gets 405 with `Allow: DELETE, POST`; `/health`, however, answers 200 to every
method. -/
theorem method_not_allowed_todos_paths (s : Store) (body : Option String)
    (timestamp random now : Nat) (method id : String)
    (h1 : id ≠ "") (h2 : '/' ∉ id.data) :
    (method ≠ "GET" → method ≠ "POST" →
      Server.handleTodos s method body timestamp random now =
        (⟨405, some "GET, POST"⟩, s)) ∧
    (method ≠ "POST" →
      Server.handleTodoByID s method ("/todos/" ++ id ++ "/toggle") now =
        (⟨405, some "POST"⟩, s)) ∧
    (method ≠ "DELETE" →
      Server.handleTodoByID s method ("/todos/" ++ id) now =
        (⟨405, some "DELETE, POST"⟩, s)) ∧
    Server.handleHealth method = ⟨200, none⟩ := by
  refine ⟨?_, ?_, ?_, rfl⟩
  · intro hG hP
    simp [Server.handleTodos, hG, hP]
  · intro hP
    simp only [Server.handleTodoByID, parts_toggle id h2]
    simp [h1, hP]
  · intro hD
    simp only [Server.handleTodoByID, parts_single id h2]
    simp [h1, hD]

theorem method_not_allowed_todos_paths_witness :
    "abc" ≠ "" ∧ '/' ∉ "abc".data ∧
    (("PUT" ≠ "GET" → "PUT" ≠ "POST" →
      Server.handleTodos [] "PUT" none 1 2 3 =
        (⟨405, some "GET, POST"⟩, ([] : Store))) ∧
    ("PUT" ≠ "POST" →
      Server.handleTodoByID [] "PUT" "/todos/abc/toggle" 3 =
        (⟨405, some "POST"⟩, ([] : Store))) ∧
    ("PUT" ≠ "DELETE" →
      Server.handleTodoByID [] "PUT" "/todos/abc" 3 =
        (⟨405, some "DELETE, POST"⟩, ([] : Store))) ∧
    Server.handleHealth "PUT" = ⟨200, none⟩) := by
  have h := method_not_allowed_todos_paths [] none 1 2 3 "PUT" "abc"
    (by decide) (by decide)
  exact ⟨by decide, by decide, by simpa using h⟩
